import Mathlib

/-!
Verification development for the PerformerSiteSync reconciliation engine
(treeman-stash-plugins).  The Python modules under
`PerformerSiteSync/temp_verify/utils.py`, `temp_verify/performer_sync.py`
and `modules/graphql_client.py` are shallowly embedded below: Python
dicts become association lists with first-occurrence lookup and
replace-in-place insertion (Python dicts have unique keys, so the two
lookup disciplines agree on all reachable values), wall-clock times are
rationals, and the network plus the sleep calls of the request loop are
made explicit as an outcome oracle and an event trace.
-/

namespace PSS

/-- A Python dict with string keys, as an association list. -/
abbrev Dict (V : Type) : Type := List (String × V)

/-- Lookup of a key, first occurrence wins (Python dicts are duplicate free). -/
def dictLookup {V : Type} : Dict V → String → Option V
  | [], _ => none
  | kv :: rest, k => if kv.1 = k then some kv.2 else dictLookup rest k

/-- Assignment d[k] = v: replace the first binding of k in place, else append. -/
def dictInsert {V : Type} : Dict V → String → V → Dict V
  | [], k, v => [(k, v)]
  | kv :: rest, k, v => if kv.1 = k then (k, v) :: rest else kv :: dictInsert rest k v

/-- Python dict.update: assign every binding of d over acc, in order. -/
def dictUpdate {V : Type} (acc d : Dict V) : Dict V :=
  d.foldl (fun a kv => dictInsert a kv.1 kv.2) acc

/-- Value of the last binding of a key (the one a sequence of assignments leaves). -/
def lastVal {V : Type} : Dict V → String → Option V
  | [], _ => none
  | kv :: rest, k =>
    match lastVal rest k with
    | some v => some v
    | none => if kv.1 = k then some kv.2 else none

lemma dictLookup_insert_self {V : Type} (a : Dict V) (k : String) (v : V) :
    dictLookup (dictInsert a k v) k = some v := by
  induction a with
  | nil => simp [dictInsert, dictLookup]
  | cons kv rest ih =>
    by_cases h : kv.1 = k
    · simp [dictInsert, h, dictLookup]
    · simp [dictInsert, h, dictLookup, ih]

lemma dictLookup_insert_other {V : Type} (a : Dict V) (k : String) (v : V)
    (k' : String) (h : k' ≠ k) :
    dictLookup (dictInsert a k v) k' = dictLookup a k' := by
  induction a with
  | nil => simp [dictInsert, dictLookup, Ne.symm h]
  | cons kv rest ih =>
    by_cases hk : kv.1 = k
    · have hkv' : ¬kv.1 = k' := by rw [hk]; exact Ne.symm h
      simp [dictInsert, hk, dictLookup, Ne.symm h, hkv']
    · simp [dictInsert, hk, dictLookup, ih]

lemma dictLookup_update {V : Type} (d : Dict V) :
    ∀ (acc : Dict V) (k : String),
      dictLookup (dictUpdate acc d) k =
        match lastVal d k with
        | some v => some v
        | none => dictLookup acc k := by
  induction d with
  | nil => intro acc k; simp [dictUpdate, lastVal]
  | cons kv rest ih =>
    intro acc k
    have hstep : dictUpdate acc (kv :: rest) = dictUpdate (dictInsert acc kv.1 kv.2) rest := by
      simp [dictUpdate, List.foldl]
    rw [hstep, ih]
    cases hrest : lastVal rest k with
    | some v => simp [lastVal, hrest]
    | none =>
      by_cases hk : kv.1 = k
      · subst hk
        simp [lastVal, hrest, dictLookup_insert_self]
      · simp [lastVal, hrest, hk, dictLookup_insert_other acc kv.1 kv.2 k (fun hh => hk hh.symm)]

lemma dictLookup_eq_none_of_not_mem {V : Type} (d : Dict V) (k : String)
    (h : k ∉ d.map Prod.fst) : dictLookup d k = none := by
  induction d with
  | nil => simp [dictLookup]
  | cons kv rest ih =>
    simp only [List.map_cons, List.mem_cons] at h
    push_neg at h
    simp [dictLookup, Ne.symm h.1, ih h.2]

lemma lastVal_eq_none_of_not_mem {V : Type} (d : Dict V) (k : String)
    (h : k ∉ d.map Prod.fst) : lastVal d k = none := by
  induction d with
  | nil => simp [lastVal]
  | cons kv rest ih =>
    simp only [List.map_cons, List.mem_cons] at h
    push_neg at h
    simp [lastVal, ih h.2, Ne.symm h.1]

lemma lastVal_of_nodup {V : Type} (d : Dict V) (k : String)
    (h : (d.map Prod.fst).Nodup) : lastVal d k = dictLookup d k := by
  induction d with
  | nil => simp [lastVal, dictLookup]
  | cons kv rest ih =>
    simp only [List.map_cons, List.nodup_cons] at h
    by_cases hk : kv.1 = k
    · subst hk
      have hnot : kv.1 ∉ rest.map Prod.fst := h.1
      simp [lastVal, dictLookup, lastVal_eq_none_of_not_mem rest kv.1 hnot]
    · simp only [lastVal, dictLookup, ih h.2, if_neg hk]
      cases hrest : dictLookup rest k with
      | some v => simp [hrest]
      | none => simp [hrest, hk]

/-- DataUtils.merge_performer_data: apply each source's fields over an
accumulator, iterating the precedence list in reverse (lowest priority
first), skipping sources absent from the map or mapped to an empty record. -/
def merge_performer_data {V : Type} (m : Dict (Dict V)) (prec : List String) : Dict V :=
  prec.reverse.foldl
    (fun acc s =>
      match dictLookup m s with
      | some d => match d with
        | [] => acc
        | _ :: _ => dictUpdate acc d
      | none => acc) []

lemma merge_congr_aux {V : Type} (m m' : Dict (Dict V))
    (h : ∀ s, dictLookup m' s = dictLookup m s) :
    ∀ (l : List String) (acc : Dict V),
      l.foldl
        (fun acc s =>
          match dictLookup m' s with
          | some d => match d with
            | [] => acc
            | _ :: _ => dictUpdate acc d
          | none => acc) acc =
      l.foldl
        (fun acc s =>
          match dictLookup m s with
          | some d => match d with
            | [] => acc
            | _ :: _ => dictUpdate acc d
          | none => acc) acc := by
  intro l
  induction l with
  | nil => intro acc; rfl
  | cons s rest ih =>
    intro acc
    simp only [List.foldl, h s]
    exact ih _

/-- C1: merging applies sources from lowest to highest precedence, so the
rank-1 source A wins every field it supplies over the rank-2 source B; the
result depends on the per-source map only through lookup (iteration order of
the map is irrelevant), and a source absent from the map is skipped. -/
theorem merge_precedence_rank1_wins {V : Type} (m m' : Dict (Dict V))
    (A B : String) (rest : List String) (dA dB : Dict V) (x : String) (va vb : V)
    (hA : dictLookup m A = some dA)
    (hAnodup : (dA.map Prod.fst).Nodup)
    (hax : dictLookup dA x = some va)
    (_hB : dictLookup m B = some dB)
    (_hbx : dictLookup dB x = some vb)
    (hagree : ∀ s, dictLookup m' s = dictLookup m s) :
    dictLookup (merge_performer_data m (A :: B :: rest)) x = some va ∧
    merge_performer_data m' (A :: B :: rest) = merge_performer_data m (A :: B :: rest) ∧
    (∀ C : String, dictLookup m C = none →
      merge_performer_data m ((A :: B :: rest) ++ [C]) =
        merge_performer_data m (A :: B :: rest)) := by
  refine ⟨?_, ?_, ?_⟩
  · have hrev : (A :: B :: rest).reverse = (B :: rest).reverse ++ [A] := by
      simp
    unfold merge_performer_data
    rw [hrev, List.foldl_append]
    have hdA : dA ≠ [] := by
      intro hnil
      rw [hnil] at hax
      simp [dictLookup] at hax
    cases hdA' : dA with
    | nil => exact absurd hdA' hdA
    | cons kv rest' =>
      simp only [List.foldl, hA, hdA']
      rw [← hdA', dictLookup_update, lastVal_of_nodup dA x hAnodup, hax]
  · unfold merge_performer_data
    exact merge_congr_aux m m' hagree _ _
  · intro C hC
    unfold merge_performer_data
    have hrev : ((A :: B :: rest) ++ [C]).reverse = C :: (A :: B :: rest).reverse := by
      simp
    rw [hrev]
    simp only [List.foldl, hC]

/-- Concrete instance of the merge-precedence theorem: two sources supplying
the same field, presented in two map orders, with an absent source appended. -/
theorem merge_precedence_rank1_wins_witness :
    dictLookup (merge_performer_data
      [("B", [("x", "vb")]), ("A", [("x", "va")])] ["A", "B"]) "x" = some "va" ∧
    merge_performer_data [("A", [("x", "va")]), ("B", [("x", "vb")])] ["A", "B"] =
      merge_performer_data [("B", [("x", "vb")]), ("A", [("x", "va")])] ["A", "B"] ∧
    (∀ C : String,
        dictLookup [("B", [("x", "vb")]), ("A", [("x", "va")])] C = none →
        merge_performer_data [("B", [("x", "vb")]), ("A", [("x", "va")])] (["A", "B"] ++ [C]) =
          merge_performer_data [("B", [("x", "vb")]), ("A", [("x", "va")])] ["A", "B"]) := by
  have h := merge_precedence_rank1_wins
    [("B", [("x", "vb")]), ("A", [("x", "va")])]
    [("A", [("x", "va")]), ("B", [("x", "vb")])]
    "A" "B" ([] : List String) [("x", "va")] [("x", "vb")] "x" "va" "vb"
    (by decide) (by decide) (by decide) (by decide) (by decide)
    (by
      intro s
      by_cases hA : s = "A"
      · subst hA; decide
      · by_cases hB : s = "B"
        · subst hB; decide
        · simp [dictLookup, Ne.symm hA, Ne.symm hB])
  exact h

/-- One cache table of graphql_client: rows (key, payload, write timestamp),
key is the primary key. -/
abbrev CacheStore (P : Type) : Type := List (String × P × Rat)

/-- SELECT data, timestamp FROM table WHERE id = key. -/
def cacheLookup {P : Type} : CacheStore P → String → Option (P × Rat)
  | [], _ => none
  | e :: rest, key => if e.1 = key then some e.2 else cacheLookup rest key

/-- GraphQLClient._is_cache_valid: now < timestamp + expiration_hours * 3600. -/
def is_cache_valid (now timestamp ttlHours : Rat) : Bool :=
  decide (now < timestamp + ttlHours * 3600)

/-- DELETE FROM table WHERE id = key. -/
def cacheErase {P : Type} : CacheStore P → String → CacheStore P
  | [], _ => []
  | e :: rest, key => if e.1 = key then cacheErase rest key else e :: cacheErase rest key

/-- GraphQLClient._get_cached_data: return the stored payload while its TTL
holds; on an expired row, delete it and return none; on a missing row return
none.  Returns the result together with the store the read leaves behind. -/
def get_cached_data {P : Type} (s : CacheStore P) (key : String) (now ttlHours : Rat) :
    Option P × CacheStore P :=
  match cacheLookup s key with
  | some (p, t) =>
    if is_cache_valid now t ttlHours then (some p, s) else (none, cacheErase s key)
  | none => (none, s)

/-- GraphQLClient._cache_data: INSERT OR REPLACE the row for the key. -/
def cache_data {P : Type} : CacheStore P → String → P → Rat → CacheStore P
  | [], key, p, t => [(key, p, t)]
  | e :: rest, key, p, t =>
    if e.1 = key then (key, p, t) :: rest else e :: cache_data rest key p t

lemma cacheLookup_erase {P : Type} (s : CacheStore P) (key : String) :
    cacheLookup (cacheErase s key) key = none := by
  induction s with
  | nil => simp [cacheErase, cacheLookup]
  | cons e rest ih =>
    by_cases h : e.1 = key
    · simp [cacheErase, h, ih]
    · simp [cacheErase, h, cacheLookup, ih]

/-- C2: a record written at time T with TTL H hours is returned unchanged by
any read strictly before T + H * 3600, and any read at or after that instant
returns absent and deletes the stale row from the store. -/
theorem cache_ttl_expiry {P : Type} (s : CacheStore P) (key : String) (p : P)
    (T H now : Rat) (hlook : cacheLookup s key = some (p, T)) :
    (now < T + H * 3600 → get_cached_data s key now H = (some p, s)) ∧
    (T + H * 3600 ≤ now →
      get_cached_data s key now H = (none, cacheErase s key) ∧
      cacheLookup (cacheErase s key) key = none) := by
  constructor
  · intro hfresh
    simp [get_cached_data, hlook, is_cache_valid, hfresh]
  · intro hstale
    refine ⟨?_, cacheLookup_erase s key⟩
    simp [get_cached_data, hlook, is_cache_valid, not_lt.mpr hstale]

/-- Concrete instance of the TTL theorem: a record written at T = 100 with a
24-hour TTL is served at time 5000 and gone at time 100 + 86400. -/
theorem cache_ttl_expiry_witness :
    get_cached_data [("k", "payload", (100 : Rat))] "k" 5000 24 =
      (some "payload", [("k", "payload", (100 : Rat))]) ∧
    get_cached_data [("k", "payload", (100 : Rat))] "k" 86500 24 =
      (none, cacheErase [("k", "payload", (100 : Rat))] "k") := by
  have h1 := cache_ttl_expiry [("k", "payload", (100 : Rat))] "k" "payload" 100 24 5000
    (by decide)
  have h2 := cache_ttl_expiry [("k", "payload", (100 : Rat))] "k" "payload" 100 24 86500
    (by decide)
  exact ⟨h1.1 (by norm_num), (h2.2 (by norm_num)).1⟩

/-- Outcome of one network attempt of GraphQLClient.make_request: a
transport-level failure (requests exception: timeout, connection error or
non-2xx via raise_for_status), or an HTTP-success response that either
carries a GraphQL error list or yields the optional data payload. -/
inductive NetOutcome (P : Type) where
  | transportFail
  | httpOk (hasErrors : Bool) (data : Option P)
deriving DecidableEq

/-- Observable timing/trace events of the request loop. -/
inductive Event where
  | attempt (i : Nat)
  | backoff (secs : Nat)
  | rateSleep (secs : Nat)
deriving DecidableEq

/-- The for-attempt-in-range(retries) loop of GraphQLClient.make_request:
rate-limit sleep before every attempt, exponential backoff sleep 2^attempt
after a transport failure when attempts remain, immediate return (no retry)
on a response carrying GraphQL errors or on a data payload. -/
def requestLoop {P : Type} (net : Nat → NetOutcome P) (rateLimit : Nat) :
    Nat → Nat → Option P × List Event
  | _, 0 => (none, [])
  | a, r + 1 =>
    let rateEv : List Event := if 0 < rateLimit then [Event.rateSleep rateLimit] else []
    match net a with
    | NetOutcome.transportFail =>
      if 0 < r then
        let res := requestLoop net rateLimit (a + 1) r
        (res.1, rateEv ++ [Event.attempt a, Event.backoff (2 ^ a)] ++ res.2)
      else
        (none, rateEv ++ [Event.attempt a])
    | NetOutcome.httpOk true _ => (none, rateEv ++ [Event.attempt a])
    | NetOutcome.httpOk false d => (d, rateEv ++ [Event.attempt a])

/-- Result of GraphQLClient.make_request: the returned payload (none is the
failure value), the trace of attempts and sleeps, and the cache store left
behind. -/
structure ReqOutcome (P : Type) where
  result : Option P
  events : List Event
  store : CacheStore P
deriving DecidableEq

/-- GraphQLClient.make_request: serve a valid cached entry without any network
attempt; otherwise run the attempt loop and, when caching is on and a data
payload was obtained, write it back to the store. -/
def make_request {P : Type} (store : CacheStore P) (key : String) (now ttlHours : Rat)
    (useCache : Bool) (net : Nat → NetOutcome P) (rateLimit retries : Nat) :
    ReqOutcome P :=
  if useCache then
    match get_cached_data store key now ttlHours with
    | (some p, s') => ⟨some p, [], s'⟩
    | (none, s') =>
      let r := requestLoop net rateLimit 0 retries
      match r.1 with
      | some payload => ⟨some payload, r.2, cache_data s' key payload now⟩
      | none => ⟨none, r.2, s'⟩
  else
    let r := requestLoop net rateLimit 0 retries
    ⟨r.1, r.2, store⟩

/-- Predicate keeping attempt and backoff events (dropping rate-limit sleeps). -/
def notRateSleep : Event → Bool
  | Event.rateSleep _ => false
  | _ => true

/-- Predicate keeping only attempt events. -/
def isAttemptEvent : Event → Bool
  | Event.attempt _ => true
  | _ => false

/-- C3: with retries = 5 and a transport that always fails, the loop makes
exactly attempts 0..4 with backoff sleeps of 1, 2, 4, 8 seconds between
consecutive attempts, no backoff after the last attempt, and returns the
failure value none. -/
theorem retry_backoff_exhaustion {P : Type} (net : Nat → NetOutcome P)
    (rateLimit : Nat) (store : CacheStore P) (key : String) (now ttlHours : Rat)
    (hfail : ∀ i, net i = NetOutcome.transportFail) :
    (make_request store key now ttlHours false net rateLimit 5).result = none ∧
    List.filter notRateSleep
        (make_request store key now ttlHours false net rateLimit 5).events =
      [Event.attempt 0, Event.backoff 1, Event.attempt 1, Event.backoff 2,
       Event.attempt 2, Event.backoff 4, Event.attempt 3, Event.backoff 8,
       Event.attempt 4] := by
  constructor
  · simp [make_request, requestLoop, hfail]
  · by_cases hr : 0 < rateLimit <;>
      simp [make_request, requestLoop, hfail, hr, notRateSleep, List.filter]

/-- Concrete instance of the retry theorem with an always-failing transport. -/
theorem retry_backoff_exhaustion_witness :
    (make_request ([] : CacheStore String) "k" 0 24 false
        (fun _ => NetOutcome.transportFail) 2 5).result = none ∧
    List.filter notRateSleep
        (make_request ([] : CacheStore String) "k" 0 24 false
          (fun _ => NetOutcome.transportFail) 2 5).events =
      [Event.attempt 0, Event.backoff 1, Event.attempt 1, Event.backoff 2,
       Event.attempt 2, Event.backoff 4, Event.attempt 3, Event.backoff 8,
       Event.attempt 4] :=
  retry_backoff_exhaustion (fun _ => NetOutcome.transportFail) 2 [] "k" 0 24
    (fun _ => rfl)

lemma requestLoop_stops_on_errors {P : Type} (net : Nat → NetOutcome P)
    (rateLimit : Nat) (d : Option P) :
    ∀ (k a r : Nat), k < r →
      (∀ i, i < k → net (a + i) = NetOutcome.transportFail) →
      net (a + k) = NetOutcome.httpOk true d →
      (requestLoop net rateLimit a r).1 = none ∧
      List.filter isAttemptEvent (requestLoop net rateLimit a r).2 =
        (List.range (k + 1)).map (fun i => Event.attempt (a + i)) := by
  intro k
  induction k with
  | zero =>
    intro a r hk _ herr
    cases r with
    | zero => omega
    | succ r' =>
      simp only [Nat.add_zero] at herr
      by_cases hrl : 0 < rateLimit <;>
        simp [requestLoop, herr, hrl, isAttemptEvent, List.filter, List.range_succ,
          List.range_zero]
  | succ k ih =>
    intro a r hk hfail herr
    cases r with
    | zero => omega
    | succ r' =>
      have hfa : net a = NetOutcome.transportFail := by
        have := hfail 0 (Nat.succ_pos k)
        simpa using this
      have hr' : 0 < r' := by omega
      have hih := ih (a + 1) r' (by omega)
        (by
          intro i hi
          have := hfail (i + 1) (by omega)
          simpa [Nat.add_assoc, Nat.add_comm 1 i] using this)
        (by
          have : a + 1 + k = a + (k + 1) := by omega
          rw [this]; exact herr)
      have hmap : (List.range (k + 1 + 1)).map (fun i => Event.attempt (a + i)) =
          Event.attempt a ::
            (List.range (k + 1)).map (fun i => Event.attempt (a + 1 + i)) := by
        rw [List.range_succ_eq_map]
        simp only [List.map_cons, Nat.add_zero, List.map_map]
        congr 1
        apply List.map_congr_left
        intro i _
        simp only [Function.comp]
        congr 1
        omega
      constructor
      · by_cases hrl : 0 < rateLimit <;>
          simp [requestLoop, hfa, hrl, hr', hih.1]
      · rw [hmap]
        by_cases hrl : 0 < rateLimit <;>
          simp [requestLoop, hfa, hrl, hr', isAttemptEvent, List.filter, hih.2]

/-- C9: when the cache misses and the response to attempt k is HTTP-successful
but carries a GraphQL error list (after k transport failures), the client
stops right there: the result is the failure value none, the attempts made are
exactly 0..k (no retry after the error response), and the store is unchanged
(nothing is cached). -/
theorem graphql_error_terminal {P : Type} (store : CacheStore P) (key : String)
    (now ttlHours : Rat) (net : Nat → NetOutcome P) (rateLimit retries k : Nat)
    (d : Option P)
    (hmiss : cacheLookup store key = none)
    (hk : k < retries)
    (hfail : ∀ i, i < k → net i = NetOutcome.transportFail)
    (herr : net k = NetOutcome.httpOk true d) :
    (make_request store key now ttlHours true net rateLimit retries).result = none ∧
    List.filter isAttemptEvent
        (make_request store key now ttlHours true net rateLimit retries).events =
      (List.range (k + 1)).map Event.attempt ∧
    (make_request store key now ttlHours true net rateLimit retries).store = store := by
  have hloop := requestLoop_stops_on_errors net rateLimit d k 0 retries hk
    (by intro i hi; simpa using hfail i hi)
    (by simpa using herr)
  have hget : get_cached_data store key now ttlHours = (none, store) := by
    simp [get_cached_data, hmiss]
  have hmk : make_request store key now ttlHours true net rateLimit retries =
      ⟨none, (requestLoop net rateLimit 0 retries).2, store⟩ := by
    simp only [make_request, if_pos rfl, hget]
    cases hres : (requestLoop net rateLimit 0 retries).1 with
    | some p => rw [hres] at hloop; exact absurd hloop.1 (by simp)
    | none => simp [hres]
  refine ⟨by rw [hmk], ?_, by rw [hmk]⟩
  rw [hmk]
  simp only [hloop.2]
  apply List.map_congr_left
  intro i _
  simp

/-- Concrete instance of the error-terminal theorem: one transport failure,
then an errors-bearing response on attempt 1; two attempts total, no caching. -/
theorem graphql_error_terminal_witness :
    (make_request ([] : CacheStore String) "k" 0 24 true
        (fun i => if i = 0 then NetOutcome.transportFail
                  else NetOutcome.httpOk true none) 2 5).result = none ∧
    List.filter isAttemptEvent
        (make_request ([] : CacheStore String) "k" 0 24 true
          (fun i => if i = 0 then NetOutcome.transportFail
                    else NetOutcome.httpOk true none) 2 5).events =
      (List.range 2).map Event.attempt ∧
    (make_request ([] : CacheStore String) "k" 0 24 true
        (fun i => if i = 0 then NetOutcome.transportFail
                  else NetOutcome.httpOk true none) 2 5).store = [] := by
  have h := graphql_error_terminal ([] : CacheStore String) "k" 0 24
    (fun i => if i = 0 then NetOutcome.transportFail else NetOutcome.httpOk true none)
    2 5 1 none rfl (by omega)
    (by intro i hi; obtain rfl : i = 0 := Nat.lt_one_iff.mp hi; rfl)
    (by rfl)
  exact h

/-- An ExternalIdentity entry: the dicts with keys stash_id and endpoint of
DataUtils.build_stash_ids_list. -/
structure StashID where
  stash_id : String
  endpoint : String
deriving DecidableEq

/-- The guard performer_data and performer_data.get('id') of
build_stash_ids_list: the external id of a record, none when the record is
empty (falsy) or its id is missing or empty (falsy). -/
def recordId (pd : Dict String) : Option String :=
  match pd with
  | [] => none
  | _ :: _ =>
    match dictLookup pd "id" with
    | some i => if i = "" then none else some i
    | none => none

/-- One iteration of the source loop of build_stash_ids_list: when the
source's record has an id, append (id, endpoint of the source) unless an
entry with that exact pair is already in the accumulated list. -/
def stashStep (cfgUrl : String → String) (acc : List StashID)
    (sd : String × Dict String) : List StashID :=
  match recordId sd.2 with
  | some i =>
    if acc.any (fun e => e.endpoint == cfgUrl sd.1 && e.stash_id == i) then acc
    else acc ++ [StashID.mk i (cfgUrl sd.1)]
  | none => acc

/-- DataUtils.build_stash_ids_list: start from the existing entries and fold
the per-source records over them.  sources_config is abstracted to the
endpoint-url function cfgUrl (the call site only passes configured sources). -/
def build_stash_ids_list (existing : List StashID)
    (m : List (String × Dict String)) (cfgUrl : String → String) : List StashID :=
  m.foldl (stashStep cfgUrl) existing

lemma stashStep_mem {cfgUrl : String → String} {acc : List StashID}
    {sd : String × Dict String} {e : StashID} (h : e ∈ acc) :
    e ∈ stashStep cfgUrl acc sd := by
  unfold stashStep
  cases recordId sd.2 with
  | none => exact h
  | some i =>
    by_cases hany : acc.any (fun e => e.endpoint == cfgUrl sd.1 && e.stash_id == i)
    · simpa [hany] using h
    · simp only [hany, Bool.false_eq_true, if_neg]
      exact List.mem_append_left _ h

lemma build_stash_ids_mono (cfgUrl : String → String) :
    ∀ (m : List (String × Dict String)) (acc : List StashID) (e : StashID),
      e ∈ acc → e ∈ m.foldl (stashStep cfgUrl) acc := by
  intro m
  induction m with
  | nil => intro acc e h; exact h
  | cons sd rest ih =>
    intro acc e h
    exact ih _ e (stashStep_mem h)

lemma build_stash_ids_spec (cfgUrl : String → String) :
    ∀ (m : List (String × Dict String)) (acc : List StashID),
      ∃ news : List StashID,
        m.foldl (stashStep cfgUrl) acc = acc ++ news ∧
        (∀ e ∈ news, e ∉ acc) ∧
        news.Nodup ∧
        (∀ e ∈ news, ∃ s pd, (s, pd) ∈ m ∧ recordId pd = some e.stash_id ∧
          e.endpoint = cfgUrl s) := by
  intro m
  induction m with
  | nil =>
    intro acc
    exact ⟨[], by simp, by simp, List.nodup_nil, by simp⟩
  | cons sd rest ih =>
    intro acc
    have hstep : (sd :: rest).foldl (stashStep cfgUrl) acc =
        rest.foldl (stashStep cfgUrl) (stashStep cfgUrl acc sd) := rfl
    cases hid : recordId sd.2 with
    | none =>
      obtain ⟨news, heq, hfresh, hnd, horig⟩ := ih acc
      refine ⟨news, ?_, hfresh, hnd, ?_⟩
      · rw [hstep]
        simpa [stashStep, hid] using heq
      · intro e he
        obtain ⟨s, pd, hmem, hrec, hep⟩ := horig e he
        exact ⟨s, pd, List.mem_cons_of_mem sd hmem, hrec, hep⟩
    | some i =>
      by_cases hany : acc.any (fun e => e.endpoint == cfgUrl sd.1 && e.stash_id == i)
      · obtain ⟨news, heq, hfresh, hnd, horig⟩ := ih acc
        refine ⟨news, ?_, hfresh, hnd, ?_⟩
        · rw [hstep]
          simpa [stashStep, hid, hany] using heq
        · intro e he
          obtain ⟨s, pd, hmem, hrec, hep⟩ := horig e he
          exact ⟨s, pd, List.mem_cons_of_mem sd hmem, hrec, hep⟩
      · set nu : StashID := StashID.mk i (cfgUrl sd.1) with hnu
        obtain ⟨news, heq, hfresh, hnd, horig⟩ := ih (acc ++ [nu])
        have hnotin : nu ∉ acc := by
          intro hmem
          apply hany
          rw [List.any_eq_true]
          exact ⟨nu, hmem, by simp [hnu]⟩
        refine ⟨nu :: news, ?_, ?_, ?_, ?_⟩
        · rw [hstep]
          have : stashStep cfgUrl acc sd = acc ++ [nu] := by
            simp [stashStep, hid, hany, hnu]
          rw [this, heq, List.append_assoc]
          rfl
        · intro e he
          rcases List.mem_cons.mp he with rfl | he'
          · exact hnotin
          · intro hacc
            exact hfresh e he' (List.mem_append_left _ hacc)
        · refine List.nodup_cons.mpr ⟨?_, hnd⟩
          intro hmem
          exact hfresh nu hmem (List.mem_append_right _ (List.mem_singleton.mpr rfl))
        · intro e he
          rcases List.mem_cons.mp he with rfl | he'
          · exact ⟨sd.1, sd.2, by simp, by simpa [hnu] using hid, by simp [hnu]⟩
          · obtain ⟨s, pd, hmem, hrec, hep⟩ := horig e he'
            exact ⟨s, pd, List.mem_cons_of_mem sd hmem, hrec, hep⟩

/-- C4: reconciliation keeps every existing entry in place, every appended
entry carries the id of a source record together with that source's endpoint
(so no identity is invented for a source without a record or without an id),
no appended entry duplicates an earlier exact (endpoint, id) pair, and every
source record with an id is represented in the result. -/
theorem stash_ids_reconciliation (existing : List StashID)
    (m : List (String × Dict String)) (cfgUrl : String → String) :
    ∃ news : List StashID,
      build_stash_ids_list existing m cfgUrl = existing ++ news ∧
      (∀ e ∈ news, e ∉ existing) ∧
      news.Nodup ∧
      (∀ e ∈ news, ∃ s pd, (s, pd) ∈ m ∧ recordId pd = some e.stash_id ∧
        e.endpoint = cfgUrl s) ∧
      (∀ s pd, (s, pd) ∈ m → ∀ i, recordId pd = some i →
        StashID.mk i (cfgUrl s) ∈ build_stash_ids_list existing m cfgUrl) := by
  obtain ⟨news, heq, hfresh, hnd, horig⟩ := build_stash_ids_spec cfgUrl m existing
  refine ⟨news, heq, hfresh, hnd, horig, ?_⟩
  intro s pd hmem i hid
  unfold build_stash_ids_list
  clear heq hfresh hnd horig
  induction m generalizing existing with
  | nil => cases hmem
  | cons sd rest ih =>
    rcases List.mem_cons.mp hmem with heq | hmem'
    · have hsd1 : sd.1 = s := by rw [← heq]
      have hsd2 : sd.2 = pd := by rw [← heq]
      have hin : StashID.mk i (cfgUrl s) ∈ stashStep cfgUrl existing sd := by
        unfold stashStep
        rw [hsd2, hid, hsd1]
        by_cases hany :
            existing.any (fun e => e.endpoint == cfgUrl s && e.stash_id == i) = true
        · have hany' := hany
          rw [List.any_eq_true] at hany'
          obtain ⟨e, hemem, hecond⟩ := hany'
          simp only [Bool.and_eq_true, beq_iff_eq] at hecond
          have he : e = StashID.mk i (cfgUrl s) := by
            cases e
            simp_all
          have hmem' : StashID.mk i (cfgUrl s) ∈ existing := he ▸ hemem
          simpa [hany] using hmem'
        · simp [hany]
      exact build_stash_ids_mono cfgUrl rest _ _ hin
    · exact ih _ hmem'

/-- C6 fails on the code: an existing identity (1, epA) for source A plus a
fetched record with id 2 yields two entries with endpoint epA — dedup is by
exact (endpoint, id) pair, not per source. -/
theorem stash_ids_per_source_counterexample :
    build_stash_ids_list [StashID.mk "1" "epA"] [("A", [("id", "2")])]
        (fun _ => "epA") =
      [StashID.mk "1" "epA", StashID.mk "2" "epA"] ∧
    (List.filter (fun e => e.endpoint == "epA")
        (build_stash_ids_list [StashID.mk "1" "epA"] [("A", [("id", "2")])]
          (fun _ => "epA"))).length = 2 := by
  constructor <;> rfl

/-- C6 amended: the reconciliation enforces at most one entry per exact
(endpoint, external id) pair — when the existing list has no duplicate
entries, neither has the result — not at most one entry per source. -/
theorem stash_ids_pair_nodup (existing : List StashID)
    (m : List (String × Dict String)) (cfgUrl : String → String)
    (hnd : existing.Nodup) :
    (build_stash_ids_list existing m cfgUrl).Nodup := by
  obtain ⟨news, heq, hfresh, hndnews, _⟩ := build_stash_ids_spec cfgUrl m existing
  unfold build_stash_ids_list
  rw [heq]
  refine List.Nodup.append hnd hndnews ?_
  intro e he hne
  exact hfresh e hne he

/-- Concrete instance of the pair-level dedup theorem. -/
theorem stash_ids_pair_nodup_witness :
    (build_stash_ids_list [StashID.mk "1" "epA"]
        [("A", [("id", "2")]), ("B", [("id", "2")])] (fun _ => "epA")).Nodup :=
  stash_ids_pair_nodup [StashID.mk "1" "epA"]
    [("A", [("id", "2")]), ("B", [("id", "2")])] (fun _ => "epA") (by decide)

/-- The merged accumulator as read by DataUtils.build_performer_update_data:
one typed optional field per dict key the function accesses. -/
structure CombinedData where
  name : Option String := none
  disambiguation : Option String := none
  aliases : List String := []
  gender : Option String := none
  birth_date : Option String := none
  ethnicity : Option String := none
  country : Option String := none
  eye_color : Option String := none
  hair_color : Option String := none
  height : Option Int := none
  cup_size : Option String := none
  band_size : Option String := none
  waist_size : Option String := none
  hip_size : Option String := none
  breast_type : Option String := none
  career_start_year : Option Int := none
  career_end_year : Option Int := none
deriving DecidableEq

/-- The local performer record, of which build_performer_update_data reads
only the name. -/
structure Performer where
  name : String
deriving DecidableEq

/-- The update payload handed to the catalog write. -/
structure PerformerUpdateData where
  name : String
  disambiguation : Option String
  alias_list : Option String
  gender : Option String
  birthdate : Option String
  ethnicity : Option String
  country : Option String
  eye_color : Option String
  hair_color : Option String
  height_cm : Option Int
  measurements : Option String
  fake_tits : Option String
  career_length : Option String
  details : Option String
  death_date : Option String
  weight : Option Int
  twitter : Option String
  instagram : Option String
  image : Option String
  url : Option String
  tag_ids : Option (List String)
  tattoos : Option String
  piercings : Option String
  stash_ids : List StashID
deriving DecidableEq

/-- Python truthiness of an optional integer: present and nonzero. -/
def intTruthy : Option Int → Bool
  | none => false
  | some n => decide (n ≠ 0)

/-- What an f-string interpolation renders for get(key, default-empty): the
number's decimal form when present, the empty string otherwise. -/
def intStr : Option Int → String
  | none => ""
  | some n => toString n

/-- get(key, default-empty) for a string-valued field. -/
def strStr : Option String → String
  | none => ""
  | some s => s

/-- Left-pad a decimal rendering with zeros, as strftime does. -/
def padZeros (w : Nat) (n : Nat) : String :=
  let s := toString n
  if s.length < w then String.mk (List.replicate (w - s.length) '0') ++ s else s

/-- DataUtils.parse_birthdate: strptime with format %Y-%m-%d, falling back to
%Y (year only, month and day 1); anything else parses to none.  Calendar
day-per-month validation is simplified to the range 1..31. -/
def parse_birthdate : Option String → Option (Nat × Nat × Nat)
  | none => none
  | some str =>
    if str = "" then none
    else
      match str.splitOn "-" with
      | [y, mo, d] =>
        match y.toNat?, mo.toNat?, d.toNat? with
        | some yn, some mn, some dn =>
          if 1 ≤ mn ∧ mn ≤ 12 ∧ 1 ≤ dn ∧ dn ≤ 31 then some (yn, mn, dn) else none
        | _, _, _ => none
      | [y] =>
        match y.toNat? with
        | some yn => some (yn, 1, 1)
        | none => none
      | _ => none

/-- DataUtils.format_birthdate: strftime %Y-%m-%d of a parsed date, none for
a missing one. -/
def format_birthdate : Option (Nat × Nat × Nat) → Option String
  | none => none
  | some (y, mo, d) =>
    some (padZeros 4 y ++ "-" ++ padZeros 2 mo ++ "-" ++ padZeros 2 d)

/-- DataUtils.build_performer_update_data: normalize the merged accumulator
into the update payload for the catalog write.  list(set(...)) of the alias
list is modeled as first-occurrence deduplication. -/
def build_performer_update_data (cd : CombinedData) (performer : Performer)
    (imageUrl : Option String) (stashIds : List StashID) : PerformerUpdateData :=
  let gender : Option String :=
    match cd.gender with
    | some g => if g = "MALE" ∨ g = "FEMALE" then some g else none
    | none => none
  let aliasL : List String := cd.aliases.dedup
  let cup := strStr cd.cup_size
  let band := strStr cd.band_size
  let waist := strStr cd.waist_size
  let hip := strStr cd.hip_size
  let measurements : Option String :=
    if cup ≠ "" ∨ band ≠ "" ∨ waist ≠ "" ∨ hip ≠ "" then
      some (cup ++ band ++ "-" ++ waist ++ "-" ++ hip)
    else none
  let career_length : Option String :=
    if intTruthy cd.career_end_year then
      some (intStr cd.career_start_year ++ "-" ++ intStr cd.career_end_year)
    else if intTruthy cd.career_start_year then
      some (intStr cd.career_start_year)
    else none
  { name := cd.name.getD performer.name
    disambiguation := cd.disambiguation
    alias_list := if aliasL = [] then none else some (String.intercalate ", " aliasL)
    gender := gender
    birthdate := format_birthdate (parse_birthdate cd.birth_date)
    ethnicity := cd.ethnicity
    country := cd.country
    eye_color := cd.eye_color
    hair_color := cd.hair_color
    height_cm := cd.height
    measurements := measurements
    fake_tits := cd.breast_type
    career_length := career_length
    details := none
    death_date := none
    weight := none
    twitter := none
    instagram := none
    image := imageUrl
    url := none
    tag_ids := none
    tattoos := none
    piercings := none
    stash_ids := stashIds }

/-- Python str.upper restricted to ASCII letters (the only case the gender
and name values exercise), one character. -/
def upperChar (c : Char) : Char :=
  if 'a' ≤ c ∧ c ≤ 'z' then Char.ofNat (c.toNat - 32) else c

/-- Python str.upper restricted to ASCII letters. -/
def upperStr (s : String) : String := String.mk (s.data.map upperChar)

/-- Python str.lower restricted to ASCII letters, one character. -/
def lowerChar (c : Char) : Char :=
  if 'A' ≤ c ∧ c ≤ 'Z' then Char.ofNat (c.toNat + 32) else c

/-- Python str.lower restricted to ASCII letters. -/
def lowerStr (s : String) : String := String.mk (s.data.map lowerChar)

/-- DataUtils.validate_gender: uppercase, then accept only MALE or FEMALE.
Defined in the same module but not called by build_performer_update_data. -/
def validate_gender : Option String → Option String
  | none => none
  | some g =>
    if g = "" then none
    else if upperStr g = "MALE" ∨ upperStr g = "FEMALE" then some (upperStr g)
    else none

/-- C7 fails on the code: the payload builder compares the gender value
case-sensitively, so the lowercase value male — equal to MALE under the
claimed case-insensitive comparison — is normalized to absent instead of
being kept. -/
theorem gender_case_counterexample :
    (build_performer_update_data { gender := some "male" } (Performer.mk "P")
        none []).gender = none ∧
    upperStr "male" = "MALE" := by
  constructor <;> rfl

/-- C7 amended: the payload keeps the input gender exactly when it is the
literal MALE or FEMALE (case-sensitive comparison), and normalizes every
other value — including lowercase male and female — to absent, never
raising an error. -/
theorem gender_payload_case_sensitive (cd : CombinedData) (performer : Performer)
    (imageUrl : Option String) (stashIds : List StashID) :
    ((cd.gender = some "MALE" ∨ cd.gender = some "FEMALE") →
      (build_performer_update_data cd performer imageUrl stashIds).gender = cd.gender) ∧
    ((∀ g, cd.gender = some g → g ≠ "MALE" ∧ g ≠ "FEMALE") →
      (build_performer_update_data cd performer imageUrl stashIds).gender = none) := by
  constructor
  · intro h
    rcases h with h | h <;> simp [build_performer_update_data, h]
  · intro h
    cases hg : cd.gender with
    | none => simp [build_performer_update_data, hg]
    | some g =>
      obtain ⟨h1, h2⟩ := h g hg
      simp [build_performer_update_data, hg, h1, h2]

/-- Concrete instance of the amended gender theorem on both branches. -/
theorem gender_payload_case_sensitive_witness :
    (build_performer_update_data { gender := some "FEMALE" } (Performer.mk "P")
        none []).gender = some "FEMALE" ∧
    (build_performer_update_data { gender := some "female" } (Performer.mk "P")
        none []).gender = none := by
  constructor
  · exact (gender_payload_case_sensitive { gender := some "FEMALE" }
      (Performer.mk "P") none []).1 (Or.inr rfl)
  · exact (gender_payload_case_sensitive { gender := some "female" }
      (Performer.mk "P") none []).2
      (by intro g hg; cases hg; exact ⟨by decide, by decide⟩)

/-- C8 fails on the code: with only a career end year present, the payload's
career-span string is "-2005" (the start renders as empty), not absent as the
claim states. -/
theorem career_length_end_only_counterexample :
    (build_performer_update_data { career_end_year := some 2005 }
        (Performer.mk "P") none []).career_length = some "-2005" := by
  rfl

/-- C8 amended: the career-span string is start-end whenever the end year is
present (and nonzero) — degenerating to -end when the start is absent —
start alone when only the start year is present (and nonzero), and absent
when neither is. -/
theorem career_length_format (cd : CombinedData) (performer : Performer)
    (imageUrl : Option String) (stashIds : List StashID) :
    (intTruthy cd.career_end_year = true →
      (build_performer_update_data cd performer imageUrl stashIds).career_length =
        some (intStr cd.career_start_year ++ "-" ++ intStr cd.career_end_year)) ∧
    (intTruthy cd.career_end_year = false → intTruthy cd.career_start_year = true →
      (build_performer_update_data cd performer imageUrl stashIds).career_length =
        some (intStr cd.career_start_year)) ∧
    (intTruthy cd.career_end_year = false → intTruthy cd.career_start_year = false →
      (build_performer_update_data cd performer imageUrl stashIds).career_length =
        none) := by
  refine ⟨?_, ?_, ?_⟩
  · intro h; simp [build_performer_update_data, h]
  · intro h1 h2; simp [build_performer_update_data, h1, h2]
  · intro h1 h2; simp [build_performer_update_data, h1, h2]

/-- Concrete instance of the amended career-span theorem on all branches. -/
theorem career_length_format_witness :
    (build_performer_update_data
        { career_start_year := some 1999, career_end_year := some 2005 }
        (Performer.mk "P") none []).career_length = some "1999-2005" ∧
    (build_performer_update_data { career_start_year := some 1999 }
        (Performer.mk "P") none []).career_length = some "1999" ∧
    (build_performer_update_data {} (Performer.mk "P") none []).career_length =
      none := by
  refine ⟨?_, ?_, ?_⟩
  · exact (career_length_format
      { career_start_year := some 1999, career_end_year := some 2005 }
      (Performer.mk "P") none []).1 (by decide)
  · exact (career_length_format { career_start_year := some 1999 }
      (Performer.mk "P") none []).2.1 (by decide) (by decide)
  · exact (career_length_format {} (Performer.mk "P") none []).2.2
      (by decide) (by decide)

/-- C10: independent of the merged data and of the local record, the payload
always sets details, death_date, weight, twitter, instagram, url, tag_ids,
tattoos and piercings to absent, and its name falls back to the local
performer's name when no source supplied one. -/
theorem performer_update_frame (cd : CombinedData) (performer : Performer)
    (imageUrl : Option String) (stashIds : List StashID) :
    (build_performer_update_data cd performer imageUrl stashIds).details = none ∧
    (build_performer_update_data cd performer imageUrl stashIds).death_date = none ∧
    (build_performer_update_data cd performer imageUrl stashIds).weight = none ∧
    (build_performer_update_data cd performer imageUrl stashIds).twitter = none ∧
    (build_performer_update_data cd performer imageUrl stashIds).instagram = none ∧
    (build_performer_update_data cd performer imageUrl stashIds).url = none ∧
    (build_performer_update_data cd performer imageUrl stashIds).tag_ids = none ∧
    (build_performer_update_data cd performer imageUrl stashIds).tattoos = none ∧
    (build_performer_update_data cd performer imageUrl stashIds).piercings = none ∧
    (cd.name = none →
      (build_performer_update_data cd performer imageUrl stashIds).name =
        performer.name) := by
  refine ⟨rfl, rfl, rfl, rfl, rfl, rfl, rfl, rfl, rfl, ?_⟩
  intro h
  simp [build_performer_update_data, h]

/-- Concrete instance of the frame theorem with an anonymous accumulator. -/
theorem performer_update_frame_witness :
    (build_performer_update_data { gender := some "MALE" } (Performer.mk "Jane")
        (some "http://img") [StashID.mk "1" "ep"]).details = none ∧
    (build_performer_update_data { gender := some "MALE" } (Performer.mk "Jane")
        (some "http://img") [StashID.mk "1" "ep"]).name = "Jane" := by
  have h := performer_update_frame { gender := some "MALE" } (Performer.mk "Jane")
    (some "http://img") [StashID.mk "1" "ep"]
  exact ⟨h.1, h.2.2.2.2.2.2.2.2.2 rfl⟩

/-- A lightweight search candidate (id, name) as returned by searchPerformer. -/
structure Candidate where
  id : String
  name : String
deriving DecidableEq

/-- DataUtils.find_exact_matches: candidates whose name equals the search
term under case-insensitive comparison. -/
def find_exact_matches (searchResults : List Candidate) (searchTerm : String) :
    List Candidate :=
  searchResults.filter (fun r => lowerStr r.name == lowerStr searchTerm)

/-- PerformerSync._search_and_match_performer: on a missing or empty search
result return none; with exactly one exact match fetch the full record by its
id; otherwise (zero or several exact matches) return none without fetching.
Returns the result together with the list of fetch-by-id calls made. -/
def search_and_match {R : Type} (searchResults : Option (List Candidate))
    (findById : String → Option R) (performerName : String) :
    Option R × List String :=
  match searchResults with
  | none => (none, [])
  | some results =>
    match results with
    | [] => (none, [])
    | _ :: _ =>
      match find_exact_matches results performerName with
      | [c] => (findById c.id, [c.id])
      | _ => (none, [])

/-- C5: exactly one case-insensitive exact match leads to one fetch-by-id of
that candidate whose result is returned; zero exact matches return absent;
two or more exact matches return absent with no fetch-by-id call. -/
theorem search_match_policy {R : Type} (results : List Candidate)
    (findById : String → Option R) (performerName : String) :
    (∀ c, find_exact_matches results performerName = [c] →
      search_and_match (some results) findById performerName =
        (findById c.id, [c.id])) ∧
    (find_exact_matches results performerName = [] →
      search_and_match (some results) findById performerName = (none, [])) ∧
    (2 ≤ (find_exact_matches results performerName).length →
      search_and_match (some results) findById performerName = (none, [])) := by
  refine ⟨?_, ?_, ?_⟩
  · intro c hc
    cases results with
    | nil => simp [find_exact_matches, List.filter] at hc
    | cons r rest => simp [search_and_match, hc]
  · intro hc
    cases results with
    | nil => simp [search_and_match]
    | cons r rest => simp [search_and_match, hc]
  · intro hlen
    cases results with
    | nil => simp [search_and_match]
    | cons r rest =>
      cases hm : find_exact_matches (r :: rest) performerName with
      | nil => simp [search_and_match, hm]
      | cons c cs =>
        cases cs with
        | nil => rw [hm] at hlen; simp at hlen
        | cons c' cs' => simp [search_and_match, hm]

/-- Concrete instance of the search policy: the two exact candidates named
Jane Doe produce absent and no fetch-by-id call. -/
theorem search_match_policy_witness :
    search_and_match (some [Candidate.mk "a" "Jane Doe", Candidate.mk "b" "jane doe"])
      (fun i => some i) "Jane Doe" = ((none : Option String), []) :=
  (search_match_policy [Candidate.mk "a" "Jane Doe", Candidate.mk "b" "jane doe"]
    (fun i => some i) "Jane Doe").2.2 (by decide)

end PSS
